import Mathlib

/-!
Verification of the multi-level feedback queue scheduler (src/src/Scheduler.js).

The Scheduler class is the only source file available; the `Queue`, `Process`
and `constants` modules it imports are collaborators described by the design
document, so their definitions below are modelled from the spec and marked as
such.  Everything in the `Scheduler` namespace that corresponds to a method of
the Scheduler class is translated directly from `Scheduler.js`.
-/

namespace MLFQ

namespace SchedulerInterrupt

/-- Modelled from the spec: the constants module `src/constants/index` is not
part of the sources; the spec fixes the interrupt vocabulary
`{PROCESS_BLOCKED, PROCESS_READY, LOWER_PRIORITY}` as string tokens. -/
def PROCESS_BLOCKED : String := "PROCESS_BLOCKED"

/-- Modelled from the spec: member of the interrupt vocabulary. -/
def PROCESS_READY : String := "PROCESS_READY"

/-- Modelled from the spec: member of the interrupt vocabulary. -/
def LOWER_PRIORITY : String := "LOWER_PRIORITY"

end SchedulerInterrupt

/-- Modelled from the spec: the constants module is missing; queues carry a
role tag distinguishing "blocking" vs "CPU". -/
inductive QueueType where
  | CPU_QUEUE : QueueType
  | BLOCKING_QUEUE : QueueType
deriving DecidableEq

/-- Modelled from the spec: `PRIORITY_LEVELS` lives in the missing constants
module; the Scheduler source's header comment says the scheduler holds a
single blocking queue and three running queues. -/
def PRIORITY_LEVELS : Nat := 3

/-- Modelled from the spec: the Process collaborator is external; it carries a
unique identifier, a remaining CPU burst time and a remaining blocking time. -/
structure Process where
  pid : Nat
  cpuTimeNeeded : Nat
  blockingTimeNeeded : Nat
deriving DecidableEq

/-- Total remaining CPU plus blocking time of a process. -/
def Process.timeNeeded (p : Process) : Nat :=
  p.cpuTimeNeeded + p.blockingTimeNeeded

/-- Modelled from the spec: the Queue module is not under the sources; a queue
is an ordered sequence of processes with a fixed quantum, a priority level and
a role tag. -/
structure Queue where
  quantum : Nat
  priorityLevel : Nat
  queueType : QueueType
  processes : List Process
deriving DecidableEq

/-- Modelled from the spec: `enqueue(process)` appends the process to the
tail, always succeeding. -/
def Queue.enqueue (q : Queue) (p : Process) : Queue :=
  { q with processes := q.processes ++ [p] }

/-- Modelled from the spec: `isEmpty()` returns whether the queue holds zero
processes, with no side effects. -/
def Queue.isEmpty (q : Queue) : Bool :=
  q.processes.isEmpty

/-- Modelled from the spec: pure accessor for the role tag. -/
def Queue.getQueueType (q : Queue) : QueueType :=
  q.queueType

/-- Modelled from the spec: pure accessor for the priority level. -/
def Queue.getPriorityLevel (q : Queue) : Nat :=
  q.priorityLevel

/-- Sum of the remaining total times of the processes held by a queue. -/
def Queue.totalTime (q : Queue) : Nat :=
  (q.processes.map Process.timeNeeded).sum

/-- The scheduler state: a clock, one blocking queue and the list of running
(CPU) queues, exactly the fields of the Scheduler class. -/
structure Scheduler where
  clock : Nat
  blockingQueue : Queue
  runningQueues : List Queue
deriving DecidableEq

/-- The scheduler built by the Scheduler constructor: a blocking queue with
quantum 50 and, for each `i` below `PRIORITY_LEVELS`, a CPU queue at priority
level `i` with quantum `10 + i * 20`.  `now` stands for the `Date.now()`
sample stored in `this.clock`. -/
def initScheduler (now : Nat) : Scheduler :=
  { clock := now
    blockingQueue := ⟨50, 0, QueueType.BLOCKING_QUEUE, []⟩
    runningQueues :=
      (List.range PRIORITY_LEVELS).map
        (fun i => ⟨10 + i * 20, i, QueueType.CPU_QUEUE, []⟩) }

/-- `allEmpty()` from Scheduler.js: every running queue is empty and the
blocking queue is empty. -/
def Scheduler.allEmpty (s : Scheduler) : Bool :=
  s.runningQueues.all (fun q => q.isEmpty) && s.blockingQueue.isEmpty

/-- Enqueue a process into the running queue stored at index `i`; this embeds
the expression `this.runningQueues[i].enqueue(process)`. -/
def Scheduler.enqueueCPUAt (s : Scheduler) (i : Nat) (p : Process) : Scheduler :=
  match s.runningQueues.get? i with
  | none => s
  | some q => { s with runningQueues := s.runningQueues.set i (q.enqueue p) }

/-- `addNewProcess(process)` from Scheduler.js: enqueue into the highest
priority running queue. -/
def Scheduler.addNewProcess (s : Scheduler) (p : Process) : Scheduler :=
  s.enqueueCPUAt 0 p

/-- `handleInterrupt(queue, process, interrupt)` from Scheduler.js: a switch on
the interrupt token routing the process into the blocking queue, the top
running queue, or the next lower priority queue (clamped at the lowest level),
with an empty default arm. -/
def Scheduler.handleInterrupt (s : Scheduler) (q : Queue) (p : Process)
    (interrupt : String) : Scheduler :=
  if interrupt = SchedulerInterrupt.PROCESS_BLOCKED then
    { s with blockingQueue := s.blockingQueue.enqueue p }
  else if interrupt = SchedulerInterrupt.PROCESS_READY then
    s.addNewProcess p
  else if interrupt = SchedulerInterrupt.LOWER_PRIORITY then
    if q.getQueueType = QueueType.CPU_QUEUE then
      s.enqueueCPUAt (min (PRIORITY_LEVELS - 1) (q.getPriorityLevel + 1)) p
    else
      { s with blockingQueue := s.blockingQueue.enqueue p }
  else
    s

/-- Modelled from the spec: `doCPUWork(workTime)` of the missing Queue module,
acting on the running queue at index `i` of scheduler `s`.  It dequeues the
head process and grants it `min(quantum, workTime)` of execution; a finished
process is dropped, a process whose next phase is blocking raises
`PROCESS_BLOCKED`, and an unfinished process raises `LOWER_PRIORITY`.  A zero
`workTime` makes no progress and fires no interrupt. -/
def Scheduler.doCPUWork (s : Scheduler) (i : Nat) (workTime : Nat) : Scheduler :=
  if workTime = 0 then s else
  match s.runningQueues.get? i with
  | none => s
  | some q =>
    match q.processes with
    | [] => s
    | p :: rest =>
      let q1 : Queue := { q with processes := rest }
      let s1 : Scheduler := { s with runningQueues := s.runningQueues.set i q1 }
      let grant := min q.quantum workTime
      let cpu1 := p.cpuTimeNeeded - grant
      if cpu1 = 0 then
        if p.blockingTimeNeeded = 0 then s1
        else s1.handleInterrupt q1 { p with cpuTimeNeeded := 0 }
          SchedulerInterrupt.PROCESS_BLOCKED
      else s1.handleInterrupt q1 { p with cpuTimeNeeded := cpu1 }
        SchedulerInterrupt.LOWER_PRIORITY

/-- Modelled from the spec: `doBlockingWork(workTime)` of the missing Queue
module, acting on the blocking queue of scheduler `s`.  It dequeues the head
process and advances its blocking phase by `workTime`; a completed blocking
phase raises `PROCESS_READY`, an incomplete one raises `LOWER_PRIORITY` with
the blocking queue as source.  A zero `workTime` makes no progress and fires
no interrupt. -/
def Scheduler.doBlockingWork (s : Scheduler) (workTime : Nat) : Scheduler :=
  if workTime = 0 then s else
  match s.blockingQueue.processes with
  | [] => s
  | p :: rest =>
    let q1 : Queue := { s.blockingQueue with processes := rest }
    let s1 : Scheduler := { s with blockingQueue := q1 }
    let blocking1 := p.blockingTimeNeeded - workTime
    if blocking1 = 0 then
      s1.handleInterrupt q1 { p with blockingTimeNeeded := 0 }
        SchedulerInterrupt.PROCESS_READY
    else
      s1.handleInterrupt q1 { p with blockingTimeNeeded := blocking1 }
        SchedulerInterrupt.LOWER_PRIORITY

/-- The blocking half of one `run()` iteration: if the blocking queue is
non-empty it does blocking work for `workTime`. -/
def Scheduler.blockingPhase (s : Scheduler) (workTime : Nat) : Scheduler :=
  if s.blockingQueue.isEmpty then s else s.doBlockingWork workTime

/-- Index of the first non-empty queue in a list of queues, embedding the
`for` loop of `run()` that scans the running queues in order and breaks after
servicing the first non-empty one. -/
def firstNonEmptyIdx : List Queue → Option Nat
  | [] => none
  | q :: qs =>
    if q.isEmpty then (firstNonEmptyIdx qs).map (fun n => n + 1) else some 0

/-- The CPU half of one `run()` iteration: the first non-empty running queue,
if any, does CPU work for `workTime`. -/
def Scheduler.cpuPhase (s : Scheduler) (workTime : Nat) : Scheduler :=
  match firstNonEmptyIdx s.runningQueues with
  | some i => s.doCPUWork i workTime
  | none => s

/-- One iteration of the `while` loop in `run()`: the clock advances by the
elapsed `workTime`, the blocking queue is serviced first, then the first
non-empty running queue. -/
def Scheduler.runIteration (s : Scheduler) (workTime : Nat) : Scheduler :=
  { (s.blockingPhase workTime).cpuPhase workTime with clock := s.clock + workTime }

/-- A service call performed by one `run()` iteration, recording the queue
serviced and the `workTime` it was given. -/
inductive Event where
  | blocking (workTime : Nat) : Event
  | cpu (index : Nat) (workTime : Nat) : Event
deriving DecidableEq

/-- The service calls made by one `run()` iteration, in order: a call to
`doBlockingWork` when the blocking queue is non-empty, then a call to
`doCPUWork` on the first running queue that is non-empty after the blocking
phase. -/
def Scheduler.iterationEvents (s : Scheduler) (workTime : Nat) : List Event :=
  (if s.blockingQueue.isEmpty then [] else [Event.blocking workTime]) ++
  (match firstNonEmptyIdx ((s.blockingPhase workTime).runningQueues) with
   | some i => [Event.cpu i workTime]
   | none => [])

/-- The scheduler state after `n` iterations of the `run()` loop, where
`wt m` is the elapsed `workTime` observed at the `m`-th iteration and `k` is
the index of the first iteration taken. -/
def runFromK (wt : Nat → Nat) : Nat → Scheduler → Nat → Scheduler
  | _, s, 0 => s
  | k, s, n + 1 => runFromK wt (k + 1) (s.runIteration (wt k)) n

/-- The `run()` loop with explicit fuel: each round performs one iteration and
exits with the resulting state as soon as `allEmpty()` holds; `none` means the
fuel ran out before the loop exited. -/
def runLoop (wt : Nat → Nat) : Nat → Nat → Scheduler → Option Scheduler
  | 0, _, _ => none
  | fuel + 1, k, s =>
    let s1 := s.runIteration (wt k)
    if s1.allEmpty then some s1 else runLoop wt fuel (k + 1) s1

/-- Total remaining CPU plus blocking time over every queue of the scheduler. -/
def totalRemaining (s : Scheduler) : Nat :=
  s.blockingQueue.totalTime + (s.runningQueues.map Queue.totalTime).sum

/-- The contents of the running queue at index `i` (empty when out of range). -/
def Scheduler.cpuProcesses (s : Scheduler) (i : Nat) : List Process :=
  ((s.runningQueues.get? i).map Queue.processes).getD []

/-- The shape of a queue: its quantum, priority level and role tag, everything
except its contents. -/
def queueShape (q : Queue) : Nat × Nat × QueueType :=
  (q.quantum, q.priorityLevel, q.queueType)

/-- The queue topology of a scheduler: the shapes of the running queues, in
order, together with the shape of the blocking queue. -/
def Scheduler.topology (s : Scheduler) : List (Nat × Nat × QueueType) × (Nat × Nat × QueueType) :=
  (s.runningQueues.map queueShape, queueShape s.blockingQueue)

/-- Every service call of the `run()` loop started at iteration `k` in state
`s` strictly decreases the total remaining time: the blocking-phase call at
each iteration where the blocking queue is non-empty, and the CPU call at each
iteration where some running queue is non-empty after the blocking phase. -/
def serviceCallsDecrease (wt : Nat → Nat) (k : Nat) (s : Scheduler) : Prop :=
  ∀ n,
    ((runFromK wt k s n).blockingQueue.isEmpty = false →
      totalRemaining ((runFromK wt k s n).blockingPhase (wt (k + n))) <
        totalRemaining (runFromK wt k s n)) ∧
    ((firstNonEmptyIdx (((runFromK wt k s n).blockingPhase (wt (k + n))).runningQueues)).isSome = true →
      totalRemaining (((runFromK wt k s n).blockingPhase (wt (k + n))).cpuPhase (wt (k + n))) <
        totalRemaining ((runFromK wt k s n).blockingPhase (wt (k + n))))

/-! ### Helper lemmas about lists and the scan for the first non-empty queue -/

theorem get?_set_same {α : Type} (l : List α) :
    ∀ i a, i < l.length → (l.set i a).get? i = some a := by
  induction l with
  | nil => intro i a h; exact absurd h (Nat.not_lt_zero i)
  | cons x xs ih =>
    intro i a h
    cases i with
    | zero => rfl
    | succ j => exact ih j a (Nat.lt_of_succ_lt_succ h)

theorem get?_set_diff {α : Type} (l : List α) :
    ∀ i j a, j ≠ i → (l.set i a).get? j = l.get? j := by
  induction l with
  | nil => intro i j a _; rfl
  | cons x xs ih =>
    intro i j a h
    cases i with
    | zero =>
      cases j with
      | zero => exact absurd rfl h
      | succ j2 => rfl
    | succ i2 =>
      cases j with
      | zero => rfl
      | succ j2 => exact ih i2 j2 a (fun he => h (congrArg Nat.succ he))

theorem get?_some_of_lt {α : Type} (l : List α) :
    ∀ i, i < l.length → ∃ a, l.get? i = some a := by
  induction l with
  | nil => intro i h; exact absurd h (Nat.not_lt_zero i)
  | cons x xs ih =>
    intro i h
    cases i with
    | zero => exact ⟨x, rfl⟩
    | succ j => exact ih j (Nat.lt_of_succ_lt_succ h)

theorem get?_of_mem {α : Type} (l : List α) :
    ∀ a, a ∈ l → ∃ j, l.get? j = some a := by
  induction l with
  | nil => intro a h; cases h
  | cons x xs ih =>
    intro a h
    rcases List.mem_cons.mp h with he | hm
    · exact ⟨0, by rw [he]; rfl⟩
    · obtain ⟨j, hj⟩ := ih a hm
      exact ⟨j + 1, hj⟩

theorem lt_of_get?_some {α : Type} (l : List α) :
    ∀ i a, l.get? i = some a → i < l.length := by
  induction l with
  | nil => intro i a h; cases h
  | cons x xs ih =>
    intro i a h
    cases i with
    | zero => exact Nat.succ_pos xs.length
    | succ j => exact Nat.succ_lt_succ (ih j a h)

theorem isEmpty_true_iff {α : Type} (l : List α) : l.isEmpty = true ↔ l = [] := by
  cases l with
  | nil => simp [List.isEmpty]
  | cons x xs => simp [List.isEmpty]

theorem mem_of_get?_some {α : Type} (l : List α) :
    ∀ i a, l.get? i = some a → a ∈ l := by
  induction l with
  | nil => intro i a h; cases h
  | cons x xs ih =>
    intro i a h
    cases i with
    | zero => exact (Option.some_injective α h) ▸ List.mem_cons_self x xs
    | succ j => exact List.mem_cons_of_mem x (ih j a h)

theorem firstNonEmptyIdx_eq_some (qs : List Queue) :
    ∀ i, firstNonEmptyIdx qs = some i →
      (∃ q, qs.get? i = some q ∧ q.isEmpty = false) ∧
      (∀ j, j < i → ∀ q2, qs.get? j = some q2 → q2.isEmpty = true) := by
  induction qs with
  | nil => intro i h; cases h
  | cons q qs ih =>
    intro i h
    by_cases hq : q.isEmpty = true
    · simp only [firstNonEmptyIdx, if_pos hq, Option.map_eq_some'] at h
      obtain ⟨i2, hi2, hsum⟩ := h
      obtain ⟨⟨q2, hq2, hq2e⟩, hbelow⟩ := ih i2 hi2
      subst hsum
      refine ⟨⟨q2, hq2, hq2e⟩, ?_⟩
      intro j hj q3 hq3
      cases j with
      | zero =>
        simp only [List.get?] at hq3
        exact (Option.some_injective Queue hq3) ▸ hq
      | succ j2 => exact hbelow j2 (Nat.lt_of_succ_lt_succ hj) q3 hq3
    · simp only [firstNonEmptyIdx, if_neg hq] at h
      have hi : i = 0 := (Option.some_injective Nat h).symm
      subst hi
      exact ⟨⟨q, rfl, Bool.eq_false_iff.mpr hq⟩, fun j hj => absurd hj (Nat.not_lt_zero j)⟩

theorem firstNonEmptyIdx_eq_none (qs : List Queue) (h : firstNonEmptyIdx qs = none) :
    ∀ q ∈ qs, q.isEmpty = true := by
  induction qs with
  | nil => intro q hq; cases hq
  | cons q0 qs ih =>
    intro q hq
    by_cases hq0 : q0.isEmpty = true
    · simp only [firstNonEmptyIdx, if_pos hq0, Option.map_eq_none'] at h
      rcases List.mem_cons.mp hq with he | hm
      · exact he ▸ hq0
      · exact ih h q hm
    · simp only [firstNonEmptyIdx, if_neg hq0] at h
      exact Option.noConfusion h

theorem firstNonEmptyIdx_none_of_all (qs : List Queue)
    (h : ∀ q ∈ qs, q.isEmpty = true) : firstNonEmptyIdx qs = none := by
  induction qs with
  | nil => rfl
  | cons q0 qs ih =>
    have hq0 : q0.isEmpty = true := h q0 (List.mem_cons_self q0 qs)
    have hrest : firstNonEmptyIdx qs = none :=
      ih (fun q hq => h q (List.mem_cons_of_mem q0 hq))
    simp only [firstNonEmptyIdx, if_pos hq0, hrest, Option.map_none']

theorem firstNonEmptyIdx_isSome (qs : List Queue) :
    ∀ j q, qs.get? j = some q → q.isEmpty = false →
      (firstNonEmptyIdx qs).isSome = true := by
  induction qs with
  | nil => intro j q h _; cases h
  | cons q0 qs ih =>
    intro j q h hne
    by_cases hq0 : q0.isEmpty = true
    · cases j with
      | zero =>
        simp only [List.get?] at h
        have he : q0 = q := Option.some_injective Queue h
        simp [he, hne] at hq0
      | succ j2 =>
        have := ih j2 q h hne
        simp only [firstNonEmptyIdx, if_pos hq0, Option.isSome_map']
        exact this
    · simp only [firstNonEmptyIdx, if_neg hq0, Option.isSome_some]

/-! ### Frame lemmas for the enqueue helpers -/

theorem enqueueCPUAt_cpuProcesses_self (s : Scheduler) (i : Nat) (p : Process)
    (h : i < s.runningQueues.length) :
    (s.enqueueCPUAt i p).cpuProcesses i = s.cpuProcesses i ++ [p] := by
  obtain ⟨q, hq⟩ := get?_some_of_lt s.runningQueues i h
  simp only [Scheduler.enqueueCPUAt, hq, Scheduler.cpuProcesses]
  rw [get?_set_same s.runningQueues i (q.enqueue p) h]
  simp only [Option.map_some', Option.getD_some, Queue.enqueue]

theorem enqueueCPUAt_cpuProcesses_other (s : Scheduler) (i : Nat) (p : Process)
    (j : Nat) (h : j ≠ i) :
    (s.enqueueCPUAt i p).cpuProcesses j = s.cpuProcesses j := by
  unfold Scheduler.enqueueCPUAt
  cases hq : s.runningQueues.get? i with
  | none => rfl
  | some q =>
    simp only [Scheduler.cpuProcesses, get?_set_diff s.runningQueues i j (q.enqueue p) h]

theorem enqueueCPUAt_blockingQueue (s : Scheduler) (i : Nat) (p : Process) :
    (s.enqueueCPUAt i p).blockingQueue = s.blockingQueue := by
  unfold Scheduler.enqueueCPUAt
  cases hq : s.runningQueues.get? i with
  | none => rfl
  | some q => rfl

theorem enqueueCPUAt_clock (s : Scheduler) (i : Nat) (p : Process) :
    (s.enqueueCPUAt i p).clock = s.clock := by
  unfold Scheduler.enqueueCPUAt
  cases hq : s.runningQueues.get? i with
  | none => rfl
  | some q => rfl

theorem enqueueCPUAt_length (s : Scheduler) (i : Nat) (p : Process) :
    (s.enqueueCPUAt i p).runningQueues.length = s.runningQueues.length := by
  unfold Scheduler.enqueueCPUAt
  cases hq : s.runningQueues.get? i with
  | none => rfl
  | some q => simp only [List.length_set]

/-! ### Reduction lemmas for handleInterrupt at each interrupt token -/

theorem handleInterrupt_blocked_eq (s : Scheduler) (q : Queue) (p : Process) :
    s.handleInterrupt q p SchedulerInterrupt.PROCESS_BLOCKED =
      { s with blockingQueue := s.blockingQueue.enqueue p } := by
  unfold Scheduler.handleInterrupt
  rw [if_pos rfl]

theorem handleInterrupt_ready_eq (s : Scheduler) (q : Queue) (p : Process) :
    s.handleInterrupt q p SchedulerInterrupt.PROCESS_READY = s.addNewProcess p := by
  unfold Scheduler.handleInterrupt
  rw [if_neg (by decide), if_pos rfl]

theorem handleInterrupt_lower_cpu_eq (s : Scheduler) (q : Queue) (p : Process)
    (hq : q.queueType = QueueType.CPU_QUEUE) :
    s.handleInterrupt q p SchedulerInterrupt.LOWER_PRIORITY =
      s.enqueueCPUAt (min (PRIORITY_LEVELS - 1) (q.priorityLevel + 1)) p := by
  unfold Scheduler.handleInterrupt
  rw [if_neg (by decide), if_neg (by decide), if_pos rfl]
  simp only [Queue.getQueueType, Queue.getPriorityLevel]
  rw [if_pos hq]

theorem handleInterrupt_lower_blocking_eq (s : Scheduler) (q : Queue) (p : Process)
    (hq : q.queueType ≠ QueueType.CPU_QUEUE) :
    s.handleInterrupt q p SchedulerInterrupt.LOWER_PRIORITY =
      { s with blockingQueue := s.blockingQueue.enqueue p } := by
  unfold Scheduler.handleInterrupt
  rw [if_neg (by decide), if_neg (by decide), if_pos rfl]
  simp only [Queue.getQueueType, Queue.getPriorityLevel]
  rw [if_neg hq]

/-! ### Preservation of the queue topology -/

theorem queueShape_enqueue (q : Queue) (p : Process) :
    queueShape (q.enqueue p) = queueShape q := rfl

theorem map_queueShape_set (l : List Queue) :
    ∀ i q q2, l.get? i = some q → queueShape q2 = queueShape q →
      (l.set i q2).map queueShape = l.map queueShape := by
  induction l with
  | nil => intro i q q2 h _; cases h
  | cons x xs ih =>
    intro i q q2 h hsh
    cases i with
    | zero =>
      have hx : x = q := Option.some_injective Queue h
      simp only [List.set, List.map, hsh, hx]
    | succ j =>
      simp only [List.set, List.map, ih j q q2 h hsh]

theorem topology_enqueueCPUAt (s : Scheduler) (i : Nat) (p : Process) :
    (s.enqueueCPUAt i p).topology = s.topology := by
  unfold Scheduler.enqueueCPUAt
  cases hq : s.runningQueues.get? i with
  | none => rfl
  | some q =>
    simp only [Scheduler.topology]
    rw [map_queueShape_set s.runningQueues i q (q.enqueue p) hq (queueShape_enqueue q p)]

theorem topology_blockingEnqueue (s : Scheduler) (p : Process) :
    Scheduler.topology { s with blockingQueue := s.blockingQueue.enqueue p } = s.topology := rfl

theorem topology_addNewProcess (s : Scheduler) (p : Process) :
    (s.addNewProcess p).topology = s.topology :=
  topology_enqueueCPUAt s 0 p

theorem topology_handleInterrupt (s : Scheduler) (q : Queue) (p : Process)
    (interrupt : String) :
    (s.handleInterrupt q p interrupt).topology = s.topology := by
  unfold Scheduler.handleInterrupt
  split
  · exact topology_blockingEnqueue s p
  · split
    · exact topology_addNewProcess s p
    · split
      · split
        · exact topology_enqueueCPUAt s _ p
        · exact topology_blockingEnqueue s p
      · rfl

theorem topology_set_dequeue (s : Scheduler) (i : Nat) (q : Queue) (rest : List Process)
    (hq : s.runningQueues.get? i = some q) :
    Scheduler.topology
        { s with runningQueues := s.runningQueues.set i { q with processes := rest } } =
      s.topology := by
  simp only [Scheduler.topology]
  rw [map_queueShape_set s.runningQueues i q { q with processes := rest } hq rfl]

theorem topology_doCPUWork (s : Scheduler) (i : Nat) (w : Nat) :
    (s.doCPUWork i w).topology = s.topology := by
  unfold Scheduler.doCPUWork
  by_cases hw : w = 0
  · rw [if_pos hw]
  · rw [if_neg hw]
    split
    · rfl
    · rename_i q hq
      split
      · rfl
      · rename_i p rest hps
        simp only
        have hbase := topology_set_dequeue s i q rest hq
        split
        · split
          · exact hbase
          · rw [topology_handleInterrupt]; exact hbase
        · rw [topology_handleInterrupt]; exact hbase

theorem topology_doBlockingWork (s : Scheduler) (w : Nat) :
    (s.doBlockingWork w).topology = s.topology := by
  unfold Scheduler.doBlockingWork
  by_cases hw : w = 0
  · rw [if_pos hw]
  · rw [if_neg hw]
    split
    · rfl
    · rename_i p rest hps
      simp only
      split
      · rw [topology_handleInterrupt]; rfl
      · rw [topology_handleInterrupt]; rfl

theorem topology_blockingPhase (s : Scheduler) (w : Nat) :
    (s.blockingPhase w).topology = s.topology := by
  unfold Scheduler.blockingPhase
  split
  · rfl
  · exact topology_doBlockingWork s w

theorem topology_cpuPhase (s : Scheduler) (w : Nat) :
    (s.cpuPhase w).topology = s.topology := by
  unfold Scheduler.cpuPhase
  split
  · exact topology_doCPUWork s _ w
  · rfl

theorem topology_clock (s : Scheduler) (c : Nat) :
    Scheduler.topology { s with clock := c } = s.topology := rfl

theorem topology_runIteration (s : Scheduler) (w : Nat) :
    (s.runIteration w).topology = s.topology := by
  unfold Scheduler.runIteration
  rw [topology_clock, topology_cpuPhase, topology_blockingPhase]

theorem topology_runLoop (wt : Nat → Nat) :
    ∀ fuel k s r, runLoop wt fuel k s = some r → r.topology = s.topology := by
  intro fuel
  induction fuel with
  | zero => intro k s r h; cases h
  | succ fuel ih =>
    intro k s r h
    simp only [runLoop] at h
    split at h
    · have hr : Scheduler.runIteration s (wt k) = r := Option.some_injective Scheduler h
      rw [← hr, topology_runIteration]
    · rw [ih (k + 1) (s.runIteration (wt k)) r h, topology_runIteration]

/-! ### Emptiness and progress lemmas for the run loop -/

theorem allEmpty_clock (s : Scheduler) (c : Nat) :
    Scheduler.allEmpty { s with clock := c } = s.allEmpty := rfl

theorem totalRemaining_clock (s : Scheduler) (c : Nat) :
    totalRemaining { s with clock := c } = totalRemaining s := rfl

theorem allEmpty_blocking (s : Scheduler) (h : s.allEmpty = true) :
    s.blockingQueue.isEmpty = true :=
  (Bool.and_eq_true_iff.mp h).2

theorem allEmpty_running (s : Scheduler) (h : s.allEmpty = true) :
    ∀ q ∈ s.runningQueues, q.isEmpty = true := by
  have := (Bool.and_eq_true_iff.mp h).1
  intro q hq
  exact List.all_eq_true.mp this q hq

theorem blockingPhase_of_empty (s : Scheduler) (w : Nat)
    (h : s.blockingQueue.isEmpty = true) : s.blockingPhase w = s := by
  unfold Scheduler.blockingPhase
  rw [if_pos h]

theorem cpuPhase_of_none (s : Scheduler) (w : Nat)
    (h : firstNonEmptyIdx s.runningQueues = none) : s.cpuPhase w = s := by
  unfold Scheduler.cpuPhase
  rw [h]

theorem allEmpty_runIteration (s : Scheduler) (w : Nat) (h : s.allEmpty = true) :
    (s.runIteration w).allEmpty = true := by
  unfold Scheduler.runIteration
  rw [blockingPhase_of_empty s w (allEmpty_blocking s h),
    cpuPhase_of_none s w (firstNonEmptyIdx_none_of_all s.runningQueues (allEmpty_running s h)),
    allEmpty_clock]
  exact h

theorem runFromK_allEmpty (wt : Nat → Nat) :
    ∀ n k s, s.allEmpty = true → (runFromK wt k s n).allEmpty = true := by
  intro n
  induction n with
  | zero => intro k s h; exact h
  | succ n ih =>
    intro k s h
    exact ih (k + 1) (s.runIteration (wt k)) (allEmpty_runIteration s (wt k) h)

theorem serviceCallsDecrease_of_allEmpty (wt : Nat → Nat) (k : Nat) (s : Scheduler)
    (h : s.allEmpty = true) : serviceCallsDecrease wt k s := by
  intro n
  have hn : (runFromK wt k s n).allEmpty = true := runFromK_allEmpty wt n k s h
  have hb : (runFromK wt k s n).blockingQueue.isEmpty = true :=
    allEmpty_blocking _ hn
  have hmid : (runFromK wt k s n).blockingPhase (wt (k + n)) = runFromK wt k s n :=
    blockingPhase_of_empty _ _ hb
  constructor
  · intro hfalse
    rw [hfalse] at hb
    cases hb
  · intro hsome
    rw [hmid, firstNonEmptyIdx_none_of_all _ (allEmpty_running _ hn)] at hsome
    cases hsome

theorem runIteration_total_lt (s : Scheduler) (w : Nat) (hne : s.allEmpty = false)
    (h1 : s.blockingQueue.isEmpty = false →
      totalRemaining (s.blockingPhase w) < totalRemaining s)
    (h2 : (firstNonEmptyIdx ((s.blockingPhase w).runningQueues)).isSome = true →
      totalRemaining ((s.blockingPhase w).cpuPhase w) < totalRemaining (s.blockingPhase w)) :
    totalRemaining (s.runIteration w) < totalRemaining s := by
  unfold Scheduler.runIteration
  rw [totalRemaining_clock]
  cases hb : s.blockingQueue.isEmpty with
  | false =>
    have hmid : totalRemaining (s.blockingPhase w) < totalRemaining s := h1 hb
    cases hfi : (firstNonEmptyIdx ((s.blockingPhase w).runningQueues)).isSome with
    | true => exact Nat.lt_trans (h2 hfi) hmid
    | false =>
      have hnone : firstNonEmptyIdx ((s.blockingPhase w).runningQueues) = none :=
        Option.not_isSome_iff_eq_none.mp (by rw [hfi]; exact Bool.false_ne_true)
      rw [cpuPhase_of_none _ w hnone]
      exact hmid
  | true =>
    have hmid : s.blockingPhase w = s := blockingPhase_of_empty s w hb
    rw [hmid] at h2 ⊢
    have hall : s.runningQueues.all (fun q => q.isEmpty) = false := by
      cases hall : s.runningQueues.all (fun q => q.isEmpty) with
      | false => rfl
      | true =>
        unfold Scheduler.allEmpty at hne
        rw [hall, hb] at hne
        cases hne
    obtain ⟨q, hqmem, hqne⟩ : ∃ q ∈ s.runningQueues, q.isEmpty = false := by
      rcases List.all_eq_false.mp hall with ⟨q, hqmem, hqne⟩
      exact ⟨q, hqmem, Bool.eq_false_iff.mpr hqne⟩
    obtain ⟨j, hj⟩ := get?_of_mem s.runningQueues q hqmem
    exact h2 (firstNonEmptyIdx_isSome s.runningQueues j q hj hqne)

theorem serviceCallsDecrease_shift (wt : Nat → Nat) (k : Nat) (s : Scheduler)
    (h : serviceCallsDecrease wt k s) :
    serviceCallsDecrease wt (k + 1) (s.runIteration (wt k)) := by
  intro n
  have heq : k + 1 + n = k + (n + 1) := by omega
  rw [heq]
  exact h (n + 1)

theorem terminates_aux (wt : Nat → Nat) :
    ∀ t k s, totalRemaining s ≤ t → serviceCallsDecrease wt k s →
      ∃ N, (runFromK wt k s N).allEmpty = true := by
  intro t
  induction t with
  | zero =>
    intro k s hle hsd
    cases hA : s.allEmpty with
    | true => exact ⟨0, hA⟩
    | false =>
      have hlt := runIteration_total_lt s (wt k) hA (hsd 0).1 (hsd 0).2
      omega
  | succ t ih =>
    intro k s hle hsd
    cases hA : s.allEmpty with
    | true => exact ⟨0, hA⟩
    | false =>
      have hlt := runIteration_total_lt s (wt k) hA (hsd 0).1 (hsd 0).2
      obtain ⟨N, hN⟩ := ih (k + 1) (s.runIteration (wt k)) (by omega)
        (serviceCallsDecrease_shift wt k s hsd)
      exact ⟨N + 1, hN⟩

theorem runLoop_isSome_of_allEmpty (wt : Nat → Nat) :
    ∀ N k s, (runFromK wt k s N).allEmpty = true →
      (runLoop wt (N + 1) k s).isSome = true := by
  intro N
  induction N with
  | zero =>
    intro k s h
    have h1 : (s.runIteration (wt k)).allEmpty = true :=
      allEmpty_runIteration s (wt k) h
    simp only [runLoop, h1, if_pos, Option.isSome_some]
  | succ N ih =>
    intro k s h
    have hh := ih (k + 1) (s.runIteration (wt k)) h
    cases h1 : (s.runIteration (wt k)).allEmpty with
    | true => simp only [runLoop, h1, if_pos, Option.isSome_some]
    | false =>
      simp only [runLoop, h1]
      exact hh

theorem runLoop_allEmpty (wt : Nat → Nat) :
    ∀ fuel k s r, runLoop wt fuel k s = some r → r.allEmpty = true := by
  intro fuel
  induction fuel with
  | zero => intro k s r h; cases h
  | succ fuel ih =>
    intro k s r h
    simp only [runLoop] at h
    split at h
    · rename_i hA
      rw [← Option.some_injective Scheduler h]
      exact hA
    · exact ih (k + 1) (s.runIteration (wt k)) r h

/-! ### Sample states used by the witnesses -/

/-- A sample process. -/
def sampleProcess : Process := ⟨7, 4, 2⟩

/-- A sample CPU queue at the lowest priority level. -/
def sampleLowQueue : Queue := ⟨50, 2, QueueType.CPU_QUEUE, []⟩

/-- A sample scheduler with a blocked process and a process at level 1. -/
def sampleSched : Scheduler :=
  { clock := 5
    blockingQueue := ⟨50, 0, QueueType.BLOCKING_QUEUE, [⟨1, 0, 9⟩]⟩
    runningQueues :=
      [⟨10, 0, QueueType.CPU_QUEUE, []⟩,
       ⟨30, 1, QueueType.CPU_QUEUE, [⟨2, 3, 0⟩]⟩,
       ⟨50, 2, QueueType.CPU_QUEUE, []⟩] }

/-! ### The claims -/

/-- C5: `addNewProcess(p)` enqueues `p` at the tail of the CPU queue at
priority level 0 (index 0) and into no other queue: the blocking queue, the
other CPU queues and the clock are unchanged. -/
theorem addNewProcess_enqueues_level_zero (s : Scheduler) (p : Process)
    (hwf : s.runningQueues.length = PRIORITY_LEVELS) :
    (s.addNewProcess p).cpuProcesses 0 = s.cpuProcesses 0 ++ [p] ∧
    (∀ j, j ≠ 0 → (s.addNewProcess p).cpuProcesses j = s.cpuProcesses j) ∧
    (s.addNewProcess p).blockingQueue = s.blockingQueue ∧
    (s.addNewProcess p).clock = s.clock := by
  refine ⟨?_, ?_, ?_, ?_⟩
  · exact enqueueCPUAt_cpuProcesses_self s 0 p (by rw [hwf]; decide)
  · intro j hj
    exact enqueueCPUAt_cpuProcesses_other s 0 p j hj
  · exact enqueueCPUAt_blockingQueue s 0 p
  · exact enqueueCPUAt_clock s 0 p

/-- C5 witness: the theorem applied to the freshly constructed scheduler. -/
theorem addNewProcess_enqueues_level_zero_witness :
    ((initScheduler 0).addNewProcess sampleProcess).cpuProcesses 0 =
      (initScheduler 0).cpuProcesses 0 ++ [sampleProcess] :=
  (addNewProcess_enqueues_level_zero (initScheduler 0) sampleProcess (by decide)).1

/-- C6: `handleInterrupt(q, p, PROCESS_BLOCKED)` enqueues `p` at the tail of
the blocking queue whatever the source queue `q` is, and leaves the running
queues and the clock unchanged. -/
theorem handleInterrupt_process_blocked_routing (s : Scheduler) (q : Queue) (p : Process) :
    (s.handleInterrupt q p SchedulerInterrupt.PROCESS_BLOCKED).blockingQueue.processes =
      s.blockingQueue.processes ++ [p] ∧
    (s.handleInterrupt q p SchedulerInterrupt.PROCESS_BLOCKED).runningQueues =
      s.runningQueues ∧
    (s.handleInterrupt q p SchedulerInterrupt.PROCESS_BLOCKED).clock = s.clock := by
  rw [handleInterrupt_blocked_eq]
  exact ⟨rfl, rfl, rfl⟩

/-- C3: `handleInterrupt(q, p, PROCESS_READY)` enqueues `p` at the tail of the
CPU queue at priority level 0 (index 0), whatever the source queue `q` is,
leaving every other queue and the clock unchanged. -/
theorem handleInterrupt_process_ready_boost (s : Scheduler) (q : Queue) (p : Process)
    (hwf : s.runningQueues.length = PRIORITY_LEVELS) :
    (s.handleInterrupt q p SchedulerInterrupt.PROCESS_READY).cpuProcesses 0 =
      s.cpuProcesses 0 ++ [p] ∧
    (∀ j, j ≠ 0 →
      (s.handleInterrupt q p SchedulerInterrupt.PROCESS_READY).cpuProcesses j =
        s.cpuProcesses j) ∧
    (s.handleInterrupt q p SchedulerInterrupt.PROCESS_READY).blockingQueue =
      s.blockingQueue ∧
    (s.handleInterrupt q p SchedulerInterrupt.PROCESS_READY).clock = s.clock := by
  rw [handleInterrupt_ready_eq]
  unfold Scheduler.addNewProcess
  refine ⟨?_, ?_, ?_, ?_⟩
  · exact enqueueCPUAt_cpuProcesses_self s 0 p (by rw [hwf]; decide)
  · intro j hj
    exact enqueueCPUAt_cpuProcesses_other s 0 p j hj
  · exact enqueueCPUAt_blockingQueue s 0 p
  · exact enqueueCPUAt_clock s 0 p

/-- C3 witness: a process readied from the blocking queue re-enters at level 0
even though the sample source queue is the blocking queue. -/
theorem handleInterrupt_process_ready_boost_witness :
    (sampleSched.handleInterrupt sampleSched.blockingQueue sampleProcess
        SchedulerInterrupt.PROCESS_READY).cpuProcesses 0 =
      sampleSched.cpuProcesses 0 ++ [sampleProcess] :=
  (handleInterrupt_process_ready_boost sampleSched sampleSched.blockingQueue
    sampleProcess (by decide)).1

/-- C2: on `LOWER_PRIORITY`, a process from a CPU queue at level `L` is
enqueued at the tail of the CPU queue at level `min(PRIORITY_LEVELS - 1, L + 1)`
with everything else unchanged (so the lowest level maps to itself and the
target level is never above `L`), and a process from the blocking queue is
enqueued back into the blocking queue. -/
theorem handleInterrupt_lower_priority_routing (s : Scheduler) (q : Queue) (p : Process)
    (hwf : s.runningQueues.length = PRIORITY_LEVELS) :
    (q.queueType = QueueType.CPU_QUEUE →
      (s.handleInterrupt q p SchedulerInterrupt.LOWER_PRIORITY).cpuProcesses
          (min (PRIORITY_LEVELS - 1) (q.priorityLevel + 1)) =
        s.cpuProcesses (min (PRIORITY_LEVELS - 1) (q.priorityLevel + 1)) ++ [p] ∧
      (∀ j, j ≠ min (PRIORITY_LEVELS - 1) (q.priorityLevel + 1) →
        (s.handleInterrupt q p SchedulerInterrupt.LOWER_PRIORITY).cpuProcesses j =
          s.cpuProcesses j) ∧
      (s.handleInterrupt q p SchedulerInterrupt.LOWER_PRIORITY).blockingQueue =
        s.blockingQueue ∧
      (q.priorityLevel = PRIORITY_LEVELS - 1 →
        min (PRIORITY_LEVELS - 1) (q.priorityLevel + 1) = PRIORITY_LEVELS - 1) ∧
      (q.priorityLevel < PRIORITY_LEVELS →
        q.priorityLevel ≤ min (PRIORITY_LEVELS - 1) (q.priorityLevel + 1))) ∧
    (q.queueType = QueueType.BLOCKING_QUEUE →
      (s.handleInterrupt q p SchedulerInterrupt.LOWER_PRIORITY).blockingQueue.processes =
        s.blockingQueue.processes ++ [p] ∧
      (s.handleInterrupt q p SchedulerInterrupt.LOWER_PRIORITY).runningQueues =
        s.runningQueues) := by
  have hPL : PRIORITY_LEVELS = 3 := rfl
  constructor
  · intro hq
    rw [handleInterrupt_lower_cpu_eq s q p hq]
    refine ⟨?_, ?_, ?_, ?_, ?_⟩
    · exact enqueueCPUAt_cpuProcesses_self s _ p (by rw [hwf]; omega)
    · intro j hj
      exact enqueueCPUAt_cpuProcesses_other s _ p j hj
    · exact enqueueCPUAt_blockingQueue s _ p
    · intro hL; omega
    · intro hL; omega
  · intro hq
    have hq2 : q.queueType ≠ QueueType.CPU_QUEUE := by
      rw [hq]; exact fun h => QueueType.noConfusion h
    rw [handleInterrupt_lower_blocking_eq s q p hq2]
    exact ⟨rfl, rfl⟩

/-- C2 witness: a process demoted out of the lowest-level sample queue stays at
level `min(PRIORITY_LEVELS - 1, 2 + 1) = 2`. -/
theorem handleInterrupt_lower_priority_routing_witness :
    (sampleSched.handleInterrupt sampleLowQueue sampleProcess
        SchedulerInterrupt.LOWER_PRIORITY).cpuProcesses
        (min (PRIORITY_LEVELS - 1) (sampleLowQueue.priorityLevel + 1)) =
      sampleSched.cpuProcesses
        (min (PRIORITY_LEVELS - 1) (sampleLowQueue.priorityLevel + 1)) ++ [sampleProcess] :=
  ((handleInterrupt_lower_priority_routing sampleSched sampleLowQueue sampleProcess
    (by decide)).1 rfl).1

/-- C7: `allEmpty()` returns true exactly when the blocking queue and all
`PRIORITY_LEVELS` CPU queues hold no process; it is a pure function of the
state. -/
theorem allEmpty_iff_all_queues_empty (s : Scheduler)
    (hwf : s.runningQueues.length = PRIORITY_LEVELS) :
    s.allEmpty = true ↔
      (s.blockingQueue.processes = [] ∧
       ∀ i, i < PRIORITY_LEVELS → s.cpuProcesses i = []) := by
  constructor
  · intro h
    refine ⟨(isEmpty_true_iff s.blockingQueue.processes).mp (allEmpty_blocking s h), ?_⟩
    intro i hi
    obtain ⟨q, hq⟩ := get?_some_of_lt s.runningQueues i (by rw [hwf]; exact hi)
    have hqe : q.isEmpty = true :=
      allEmpty_running s h q (mem_of_get?_some s.runningQueues i q hq)
    simp only [Scheduler.cpuProcesses, hq, Option.map_some', Option.getD_some]
    exact (isEmpty_true_iff q.processes).mp hqe
  · intro h
    unfold Scheduler.allEmpty
    rw [Bool.and_eq_true_iff]
    constructor
    · rw [List.all_eq_true]
      intro q hqmem
      obtain ⟨j, hj⟩ := get?_of_mem s.runningQueues q hqmem
      have hjlt : j < PRIORITY_LEVELS := by
        rw [← hwf]; exact lt_of_get?_some s.runningQueues j q hj
      have := h.2 j hjlt
      simp only [Scheduler.cpuProcesses, hj, Option.map_some', Option.getD_some] at this
      exact (isEmpty_true_iff q.processes).mpr this
    · exact (isEmpty_true_iff s.blockingQueue.processes).mpr h.1

/-- C7 witness: the theorem applied to the freshly constructed scheduler. -/
theorem allEmpty_iff_all_queues_empty_witness :
    (initScheduler 0).allEmpty = true :=
  (allEmpty_iff_all_queues_empty (initScheduler 0) (by decide)).mpr (by decide)

/-- C8: an interrupt token that is none of the three known ones leaves the
scheduler state (queues and clock) unchanged and raises no error. -/
theorem handleInterrupt_unknown_noop (s : Scheduler) (q : Queue) (p : Process)
    (interrupt : String)
    (h1 : interrupt ≠ SchedulerInterrupt.PROCESS_BLOCKED)
    (h2 : interrupt ≠ SchedulerInterrupt.PROCESS_READY)
    (h3 : interrupt ≠ SchedulerInterrupt.LOWER_PRIORITY) :
    s.handleInterrupt q p interrupt = s := by
  unfold Scheduler.handleInterrupt
  rw [if_neg h1, if_neg h2, if_neg h3]

/-- C8 witness: an unrecognized token is a no-op on the sample scheduler. -/
theorem handleInterrupt_unknown_noop_witness :
    sampleSched.handleInterrupt sampleLowQueue sampleProcess "PROCESS_DONE" = sampleSched :=
  handleInterrupt_unknown_noop sampleSched sampleLowQueue sampleProcess "PROCESS_DONE"
    (by decide) (by decide) (by decide)

/-- C9: every recognized interrupt enqueues the process at the tail of exactly
one queue, leaves every other queue unchanged and leaves the clock unchanged. -/
theorem handleInterrupt_single_enqueue_frame (s : Scheduler) (q : Queue) (p : Process)
    (interrupt : String)
    (hwf : s.runningQueues.length = PRIORITY_LEVELS)
    (hint : interrupt = SchedulerInterrupt.PROCESS_BLOCKED ∨
      interrupt = SchedulerInterrupt.PROCESS_READY ∨
      interrupt = SchedulerInterrupt.LOWER_PRIORITY) :
    (s.handleInterrupt q p interrupt).clock = s.clock ∧
    (((s.handleInterrupt q p interrupt).blockingQueue.processes =
        s.blockingQueue.processes ++ [p] ∧
      ∀ j, (s.handleInterrupt q p interrupt).cpuProcesses j = s.cpuProcesses j) ∨
     (∃ t, t < PRIORITY_LEVELS ∧
       (s.handleInterrupt q p interrupt).cpuProcesses t = s.cpuProcesses t ++ [p] ∧
       (∀ j, j ≠ t →
         (s.handleInterrupt q p interrupt).cpuProcesses j = s.cpuProcesses j) ∧
       (s.handleInterrupt q p interrupt).blockingQueue = s.blockingQueue)) := by
  have hPL : PRIORITY_LEVELS = 3 := rfl
  rcases hint with h | h | h
  · subst h
    rw [handleInterrupt_blocked_eq]
    exact ⟨rfl, Or.inl ⟨rfl, fun j => rfl⟩⟩
  · subst h
    rw [handleInterrupt_ready_eq]
    unfold Scheduler.addNewProcess
    refine ⟨enqueueCPUAt_clock s 0 p, Or.inr ⟨0, by omega, ?_, ?_, ?_⟩⟩
    · exact enqueueCPUAt_cpuProcesses_self s 0 p (by rw [hwf]; omega)
    · intro j hj
      exact enqueueCPUAt_cpuProcesses_other s 0 p j hj
    · exact enqueueCPUAt_blockingQueue s 0 p
  · subst h
    by_cases hq : q.queueType = QueueType.CPU_QUEUE
    · rw [handleInterrupt_lower_cpu_eq s q p hq]
      refine ⟨enqueueCPUAt_clock s _ p,
        Or.inr ⟨min (PRIORITY_LEVELS - 1) (q.priorityLevel + 1), by omega, ?_, ?_, ?_⟩⟩
      · exact enqueueCPUAt_cpuProcesses_self s _ p (by rw [hwf]; omega)
      · intro j hj
        exact enqueueCPUAt_cpuProcesses_other s _ p j hj
      · exact enqueueCPUAt_blockingQueue s _ p
    · rw [handleInterrupt_lower_blocking_eq s q p hq]
      exact ⟨rfl, Or.inl ⟨rfl, fun j => rfl⟩⟩

/-- C9 witness: the theorem applied at the `PROCESS_READY` interrupt on the
sample scheduler. -/
theorem handleInterrupt_single_enqueue_frame_witness :
    (sampleSched.handleInterrupt sampleLowQueue sampleProcess
        SchedulerInterrupt.PROCESS_READY).clock = sampleSched.clock :=
  (handleInterrupt_single_enqueue_frame sampleSched sampleLowQueue sampleProcess
    SchedulerInterrupt.PROCESS_READY (by decide) (Or.inr (Or.inl rfl))).1

/-- C10: the constructor builds exactly `PRIORITY_LEVELS` CPU queues, the one
at index `i` having priority level `i` and quantum `10 + i * 20`, plus a
blocking queue with quantum 50; and no operation (a run iteration, the run
loop, `addNewProcess`, `handleInterrupt`) ever changes the number, order,
levels or quanta of the queues. -/
theorem scheduler_queue_topology :
    (∀ now, (initScheduler now).runningQueues.length = PRIORITY_LEVELS) ∧
    (∀ now i, i < PRIORITY_LEVELS →
      (initScheduler now).runningQueues.get? i =
        some ⟨10 + i * 20, i, QueueType.CPU_QUEUE, []⟩) ∧
    (∀ now, (initScheduler now).blockingQueue = ⟨50, 0, QueueType.BLOCKING_QUEUE, []⟩) ∧
    (∀ s w, (Scheduler.runIteration s w).topology = s.topology) ∧
    (∀ wt fuel k s r, runLoop wt fuel k s = some r → r.topology = s.topology) ∧
    (∀ s p, (Scheduler.addNewProcess s p).topology = s.topology) ∧
    (∀ s q p interrupt, (Scheduler.handleInterrupt s q p interrupt).topology = s.topology) := by
  refine ⟨fun now => rfl, ?_, fun now => rfl, topology_runIteration, ?_, topology_addNewProcess,
    topology_handleInterrupt⟩
  · intro now i hi
    have hPL : PRIORITY_LEVELS = 3 := rfl
    have h3 : i = 0 ∨ i = 1 ∨ i = 2 := by omega
    rcases h3 with h | h | h <;> subst h <;> rfl
  · intro wt fuel k s r h
    exact topology_runLoop wt fuel k s r h

/-- C10 witness: the theorem applied at index 2 of the fresh scheduler and at
a one-step run of the empty scheduler. -/
theorem scheduler_queue_topology_witness :
    (initScheduler 0).runningQueues.get? 2 = some ⟨50, 2, QueueType.CPU_QUEUE, []⟩ ∧
    (initScheduler 1).topology = (initScheduler 0).topology :=
  ⟨scheduler_queue_topology.2.1 0 2 (by decide),
   scheduler_queue_topology.2.2.2.2.1 (fun _ => 1) 1 0 (initScheduler 0) (initScheduler 1)
     (by decide)⟩

/-- C1: in every iteration of `run()`, the blocking queue is serviced first,
and it is serviced exactly when it is non-empty; then at most one CPU queue is
serviced, namely the lowest-index non-empty one at scan time (every queue
below that index being empty), and every service call of the iteration
receives the same `workTime`. -/
theorem run_iteration_services_in_priority_order (s : Scheduler) (w : Nat) :
    (Event.blocking w ∈ s.iterationEvents w ↔ s.blockingQueue.isEmpty = false) ∧
    (s.blockingQueue.isEmpty = false →
      (s.iterationEvents w).head? = some (Event.blocking w)) ∧
    (∀ w2, Event.blocking w2 ∈ s.iterationEvents w → w2 = w) ∧
    (∀ i w2, Event.cpu i w2 ∈ s.iterationEvents w →
      w2 = w ∧
      (∃ q, (s.blockingPhase w).runningQueues.get? i = some q ∧ q.isEmpty = false) ∧
      (∀ j, j < i → ∀ q2, (s.blockingPhase w).runningQueues.get? j = some q2 →
        q2.isEmpty = true)) ∧
    (∀ i w2 i2 w3, Event.cpu i w2 ∈ s.iterationEvents w →
      Event.cpu i2 w3 ∈ s.iterationEvents w → i = i2) ∧
    ((∃ j q, (s.blockingPhase w).runningQueues.get? j = some q ∧ q.isEmpty = false) →
      ∃ i, Event.cpu i w ∈ s.iterationEvents w) := by
  refine ⟨?_, ?_, ?_, ?_, ?_, ?_⟩
  · constructor
    · intro hmem
      cases hb : s.blockingQueue.isEmpty with
      | false => rfl
      | true =>
        unfold Scheduler.iterationEvents at hmem
        rw [hb] at hmem
        simp only [if_pos, List.nil_append] at hmem
        cases hfi : firstNonEmptyIdx ((s.blockingPhase w).runningQueues) with
        | some i => rw [hfi] at hmem; simp at hmem
        | none => rw [hfi] at hmem; simp at hmem
    · intro hb
      unfold Scheduler.iterationEvents
      rw [hb]
      simp only [Bool.false_eq_true, if_false, List.cons_append]
      exact List.mem_cons_self _ _
  · intro hb
    unfold Scheduler.iterationEvents
    rw [hb]
    simp only [Bool.false_eq_true, if_false, List.cons_append, List.head?_cons]
  · intro w2 hmem
    unfold Scheduler.iterationEvents at hmem
    rcases List.mem_append.mp hmem with hA | hB
    · cases hb : s.blockingQueue.isEmpty with
      | true => rw [hb] at hA; simp at hA
      | false =>
        rw [hb] at hA
        simp only [Bool.false_eq_true, if_false, List.mem_singleton] at hA
        exact (Event.blocking.injEq w2 w).mp hA
    · cases hfi : firstNonEmptyIdx ((s.blockingPhase w).runningQueues) with
      | some i => rw [hfi] at hB; simp at hB
      | none => rw [hfi] at hB; simp at hB
  · intro i w2 hmem
    unfold Scheduler.iterationEvents at hmem
    rcases List.mem_append.mp hmem with hA | hB
    · cases hb : s.blockingQueue.isEmpty with
      | true => rw [hb] at hA; simp at hA
      | false => rw [hb] at hA; simp at hA
    · cases hfi : firstNonEmptyIdx ((s.blockingPhase w).runningQueues) with
      | none => rw [hfi] at hB; simp at hB
      | some i0 =>
        rw [hfi] at hB
        simp only [List.mem_singleton, Event.cpu.injEq] at hB
        obtain ⟨hi, hw⟩ := hB
        subst hi
        obtain ⟨hex, hbelow⟩ :=
          firstNonEmptyIdx_eq_some ((s.blockingPhase w).runningQueues) i hfi
        exact ⟨hw, hex, hbelow⟩
  · intro i w2 i2 w3 hmem hmem2
    unfold Scheduler.iterationEvents at hmem hmem2
    rcases List.mem_append.mp hmem with hA | hB
    · cases hb : s.blockingQueue.isEmpty with
      | true => rw [hb] at hA; simp at hA
      | false => rw [hb] at hA; simp at hA
    · rcases List.mem_append.mp hmem2 with hA2 | hB2
      · cases hb : s.blockingQueue.isEmpty with
        | true => rw [hb] at hA2; simp at hA2
        | false => rw [hb] at hA2; simp at hA2
      · cases hfi : firstNonEmptyIdx ((s.blockingPhase w).runningQueues) with
        | none => rw [hfi] at hB; simp at hB
        | some i0 =>
          rw [hfi] at hB hB2
          simp only [List.mem_singleton, Event.cpu.injEq] at hB hB2
          rw [hB.1, hB2.1]
  · intro hex
    obtain ⟨j, q, hj, hq⟩ := hex
    have hsome :=
      firstNonEmptyIdx_isSome ((s.blockingPhase w).runningQueues) j q hj hq
    obtain ⟨i, hi⟩ := Option.isSome_iff_exists.mp hsome
    refine ⟨i, ?_⟩
    unfold Scheduler.iterationEvents
    rw [hi]
    exact List.mem_append.mpr (Or.inr (List.mem_singleton.mpr rfl))

/-- C1 witness: on the sample scheduler both the blocking queue and, after the
blocking phase, running queue 1 are serviced with the same `workTime`. -/
theorem run_iteration_services_in_priority_order_witness :
    (Event.blocking 4 ∈ sampleSched.iterationEvents 4) ∧
    (sampleSched.iterationEvents 4).head? = some (Event.blocking 4) :=
  ⟨(run_iteration_services_in_priority_order sampleSched 4).1.mpr (by decide),
   (run_iteration_services_in_priority_order sampleSched 4).2.1 (by decide)⟩

/-! ### Termination of the run loop (C4) -/

theorem runFromK_add (wt : Nat → Nat) :
    ∀ M k s m, runFromK wt k s (M + m) = runFromK wt (k + M) (runFromK wt k s M) m := by
  intro M
  induction M with
  | zero =>
    intro k s m
    rw [Nat.zero_add]
    rfl
  | succ M ih =>
    intro k s m
    have h1 : M + 1 + m = (M + m) + 1 := by omega
    rw [h1]
    have h2 := ih (k + 1) (s.runIteration (wt k)) m
    have h3 : k + 1 + M = k + (M + 1) := by omega
    rw [h3] at h2
    exact h2

theorem serviceCallsDecrease_of_prefix (wt : Nat → Nat) (k : Nat) (s : Scheduler)
    (M : Nat) (hM : (runFromK wt k s M).allEmpty = true)
    (hchk : ∀ n, n < M →
      ((runFromK wt k s n).blockingQueue.isEmpty = false →
        totalRemaining ((runFromK wt k s n).blockingPhase (wt (k + n))) <
          totalRemaining (runFromK wt k s n)) ∧
      ((firstNonEmptyIdx (((runFromK wt k s n).blockingPhase (wt (k + n))).runningQueues)).isSome = true →
        totalRemaining (((runFromK wt k s n).blockingPhase (wt (k + n))).cpuPhase (wt (k + n))) <
          totalRemaining ((runFromK wt k s n).blockingPhase (wt (k + n))))) :
    serviceCallsDecrease wt k s := by
  intro n
  by_cases hn : n < M
  · exact hchk n hn
  · have hm : n = M + (n - M) := by omega
    have hEmpty : (runFromK wt k s n).allEmpty = true := by
      rw [hm, runFromK_add wt M k s (n - M)]
      exact runFromK_allEmpty wt (n - M) (k + M) _ hM
    constructor
    · intro hfalse
      rw [allEmpty_blocking _ hEmpty] at hfalse
      cases hfalse
    · intro hsome
      rw [blockingPhase_of_empty _ _ (allEmpty_blocking _ hEmpty),
        firstNonEmptyIdx_none_of_all _ (allEmpty_running _ hEmpty)] at hsome
      cases hsome

/-- The elapsed-time sequence of the C4 counterexample: the first loop
iteration observes no elapsed time, every later one observes one unit. -/
def wtZeroThenOne : Nat → Nat := fun n => if n = 0 then 0 else 1

/-- A fresh scheduler with a single submitted process needing one unit of CPU
time and no blocking time. -/
def oneShotSched : Scheduler := (initScheduler 0).addNewProcess ⟨0, 1, 0⟩

/-- C4 counterexample: the claimed equivalence between termination of
`run()` and strict decrease at every service call fails.  With one submitted
process (1 unit of CPU, no blocking) and a first iteration whose `workTime`
is zero, the loop terminates (with fuel 2), yet the CPU service call of the
first iteration decreases nothing. -/
theorem run_termination_iff_counterexample :
    ¬ ((∃ fuel, (runLoop wtZeroThenOne fuel 0 oneShotSched).isSome = true) ↔
        serviceCallsDecrease wtZeroThenOne 0 oneShotSched) := by
  intro h
  have hsd := h.mp ⟨2, by decide⟩
  exact absurd ((hsd 0).2 (by decide)) (by decide)

/-- C4 (amended): if every service call of the run strictly decreases the
total remaining CPU plus blocking time, the `run()` loop terminates; and the
loop exits exactly at a state where the blocking queue and all CPU queues are
simultaneously empty.  The converse of the claimed equivalence fails, see the
counterexample. -/
theorem run_terminates_of_decreasing_service (wt : Nat → Nat) (s : Scheduler)
    (h : serviceCallsDecrease wt 0 s) :
    (∃ fuel, (runLoop wt fuel 0 s).isSome = true) ∧
    (∀ fuel r, runLoop wt fuel 0 s = some r → r.allEmpty = true) ∧
    (∀ N, (runFromK wt 0 s N).allEmpty = true → (runLoop wt (N + 1) 0 s).isSome = true) := by
  refine ⟨?_, ?_, ?_⟩
  · obtain ⟨N, hN⟩ := terminates_aux wt (totalRemaining s) 0 s (Nat.le_refl _) h
    exact ⟨N + 1, runLoop_isSome_of_allEmpty wt N 0 s hN⟩
  · intro fuel r hr
    exact runLoop_allEmpty wt fuel 0 s r hr
  · intro N hN
    exact runLoop_isSome_of_allEmpty wt N 0 s hN

/-- C4 witness: with a constant positive elapsed time every service call of
the one-process run strictly decreases the total remaining time, and the
theorem yields termination of that run. -/
theorem run_terminates_of_decreasing_service_witness :
    serviceCallsDecrease (fun _ => 1) 0 oneShotSched ∧
    (∃ fuel, (runLoop (fun _ => 1) fuel 0 oneShotSched).isSome = true) := by
  have hsd : serviceCallsDecrease (fun _ => 1) 0 oneShotSched := by
    refine serviceCallsDecrease_of_prefix (fun _ => 1) 0 oneShotSched 1 (by decide) ?_
    intro n hn
    have hn0 : n = 0 := by omega
    subst hn0
    exact ⟨by decide, by decide⟩
  exact ⟨hsd, (run_terminates_of_decreasing_service (fun _ => 1) oneShotSched hsd).1⟩

end MLFQ
